import Mathlib

/-!
Embedding of `govc/pool/info.go`, the govc command `pool.info`.

The command resolves resource-pool name patterns, retrieves the pools'
properties in one batched call and renders a report through a
`text/tabwriter` writer.

Conventions of the embedding:

* text is a `List Char`: a Go string holding valid UTF-8, one `Char` per
  rune (so the byte `0xff`, which the tab writer reads as the start of an
  escaped segment, never occurs);
* the `int64` and `int` fields are `Int`;
* the `float64` arithmetic of the usage percentage is IEEE-754 binary64,
  every operation rounded to nearest, ties to even;
* a Go run-time panic is `none`;
* the collaborators of `Run` (`Client`, `Finder`, `ResourcePoolList`,
  `Retrieve`, `WriteResult`) are functions of an abstract state of the
  outside world, and `Run` returns the log of the calls it made.

The first part holds the definitions, the second the theorems.
-/

namespace Pool

/-! ## `fmt` verbs used by `writeInfo` -/

/-- Text written by the program: the characters of a Go string. -/
abbrev Text := List Char

/-- Go `%d` on an integer: optional minus sign, then the decimal digits. -/
def fmtD : Int → Text
  | Int.ofNat n => Nat.toDigits 10 n
  | Int.negSucc n => '-' :: Nat.toDigits 10 (n + 1)

/-- Go `%v` on a `bool`. -/
def fmtBool : Bool → Text
  | true => "true".toList
  | false => "false".toList

/-! ## `float64` arithmetic and `%0.1f` -/

/-- A `float64` value: NaN, a signed infinity, or the finite value
`(-1)^neg * m * 2^e` (zero keeps its sign, as in IEEE-754). -/
inductive Float64 where
  | nan : Float64
  | inf (neg : Bool) : Float64
  | fin (neg : Bool) (m : Nat) (e : Int) : Float64
  deriving DecidableEq, Repr

/-- Bit length by repeated halving; `f` bounds the number of halvings
(`bitLen_bounds` shows that `n` of them are enough for `n`). -/
def bitLenAux : Nat → Nat → Nat
  | 0, _ => 0
  | f + 1, n => if n = 0 then 0 else bitLenAux f (n / 2) + 1

/-- Number of binary digits of `n`; `0` for `0`. -/
def bitLen (n : Nat) : Nat := bitLenAux n n

/-- The integer nearest to `num / den`, ties going to the even one. -/
def roundHalfEven (num den : Nat) : Nat :=
  if 2 * (num % den) < den then num / den
  else if den < 2 * (num % den) then num / den + 1
  else if (num / den) % 2 = 0 then num / den
  else num / den + 1

/-- The exponent `L` with `2^L ≤ num / den < 2^(L+1)`, for `num, den > 0`. -/
def floorLog2 (num den : Nat) : Int :=
  let k : Int := (bitLen num : Int) - (bitLen den : Int)
  if 0 ≤ k then
    if den * 2 ^ k.toNat ≤ num then k else k - 1
  else
    if den ≤ num * 2 ^ (-k).toNat then k else k - 1

/-- The rational `num / den` scaled by `2^(-s)` and rounded to an integer. -/
def scaleRound (num den : Nat) (s : Int) : Nat :=
  if 0 ≤ s then roundHalfEven num (den * 2 ^ s.toNat)
  else roundHalfEven (num * 2 ^ (-s).toNat) den

/-- Round the non-negative rational `num / den` (`den > 0`) to binary64,
round-to-nearest-even: 53 bits of precision, gradual underflow below
`2^-1022` (quantum `2^-1074`), overflow to infinity from `2^1024`. -/
def round64 (neg : Bool) (num den : Nat) : Float64 :=
  if num = 0 then Float64.fin neg 0 0
  else
    let s : Int := max (floorLog2 num den - 52) (-1074)
    let m := scaleRound num den s
    if 1024 < (bitLen m : Int) + s then Float64.inf neg else Float64.fin neg m s

/-- The value `m * 2^e` as a fraction `(numerator, denominator)`. -/
def toFrac (m : Nat) (e : Int) : Nat × Nat :=
  if 0 ≤ e then (m * 2 ^ e.toNat, 1) else (m, 2 ^ (-e).toNat)

/-- Go `float64(x)` for an integer `x`. -/
def Float64.ofInt (x : Int) : Float64 :=
  round64 (decide (x < 0)) x.natAbs 1

/-- IEEE-754 multiplication. -/
def Float64.mul : Float64 → Float64 → Float64
  | Float64.nan, _ => Float64.nan
  | _, Float64.nan => Float64.nan
  | Float64.inf s, Float64.inf t => Float64.inf (xor s t)
  | Float64.inf s, Float64.fin t m _ => if m = 0 then Float64.nan else Float64.inf (xor s t)
  | Float64.fin s m _, Float64.inf t => if m = 0 then Float64.nan else Float64.inf (xor s t)
  | Float64.fin s m e, Float64.fin t n f =>
      round64 (xor s t) ((toFrac m e).1 * (toFrac n f).1) ((toFrac m e).2 * (toFrac n f).2)

/-- IEEE-754 division: `0/0` and `inf/inf` are NaN, a non-zero finite value
divided by zero is a signed infinity. -/
def Float64.div : Float64 → Float64 → Float64
  | Float64.nan, _ => Float64.nan
  | _, Float64.nan => Float64.nan
  | Float64.inf _, Float64.inf _ => Float64.nan
  | Float64.inf s, Float64.fin t _ _ => Float64.inf (xor s t)
  | Float64.fin s _ _, Float64.inf t => Float64.fin (xor s t) 0 0
  | Float64.fin s m e, Float64.fin t n f =>
      if n = 0 then
        if m = 0 then Float64.nan else Float64.inf (xor s t)
      else
        round64 (xor s t) ((toFrac m e).1 * (toFrac n f).2) ((toFrac m e).2 * (toFrac n f).1)

/-- Go `%0.1f` on a `float64`: `NaN`, `+Inf`, `-Inf`, or the value rounded
(half to even on its exact value) to one decimal, with a minus sign when
the sign bit is set. -/
def fmtF1 : Float64 → Text
  | Float64.nan => "NaN".toList
  | Float64.inf false => "+Inf".toList
  | Float64.inf true => "-Inf".toList
  | Float64.fin neg m e =>
      let n := roundHalfEven ((toFrac m e).1 * 10) (toFrac m e).2
      (if neg then ['-'] else []) ++ Nat.toDigits 10 (n / 10) ++ '.' :: Nat.toDigits 10 (n % 10)

/-! ## `text/tabwriter` as `infoResult.Write` configures it

`tabwriter.NewWriter(w, 2, 0, 2, ' ', 0)`: minwidth 2, tabwidth 0, padding
2, padding character space, no flags.  The writer splits the text into
cells at `\t` and `\v`, and into lines at `\n` and `\f`.  A cell that is
not the last of its line belongs to a column; the cells of one column in
consecutive lines form a block whose width is that of the widest cell plus
the padding, at least minwidth, and each cell of the block is followed by
spaces up to that width.  With no flags set there is no HTML filtering, no
discarding of empty columns and no right alignment. -/

/-- Value of `minwidth` in the call `tabwriter.NewWriter(w, 2, 0, 2, ' ', 0)`. -/
def minwidth : Nat := 2

/-- Value of `padding` in the call `tabwriter.NewWriter(w, 2, 0, 2, ' ', 0)`. -/
def padding : Nat := 2

/-- A buffered line: its cells, and whether it is the last buffered line
(which is written without a newline). -/
abbrev Line := List Text × Bool

/-- State of a `tabwriter.Writer`: what has reached the underlying writer,
the buffered complete lines, the terminated cells of the current line and
the text of the current, unterminated cell. -/
structure Writer where
  out : Text
  lines : List (List Text)
  line : List Text
  cell : Text
  deriving DecidableEq, Repr

/-- Result of `tabwriter.NewWriter`: nothing written, nothing buffered. -/
def NewWriter : Writer := ⟨[], [], [], []⟩

/-- Padding of a cell of `textw` runes in a column `cellw` wide
(`writePadding` with a non-tab padding character). -/
def writePadding (textw cellw : Nat) : Text := List.replicate (cellw - textw) ' '

/-- The cells of one line: cell `j` is followed by its padding when a
width is known for column `j`. -/
def writeCells : List Nat → List Text → Text
  | _, [] => []
  | [], c :: cs => c ++ writeCells [] cs
  | w :: ws, c :: cs => c ++ writePadding c.length w ++ writeCells ws cs

/-- One line as `writeLines` prints it: the cells, then a newline unless it
is the last buffered line. -/
def writeLine (widths : List Nat) (l : Line) : Text :=
  writeCells widths l.1 ++ (if l.2 then [] else ['\n'])

/-- Lines printed one after the other (`writeLines`). -/
def writeLines (widths : List Nat) (ls : List Line) : Text :=
  (ls.map (writeLine widths)).flatten

/-- Whether the line has a cell in this column (the last cell of a line
belongs to no column): Go's `column < len(line)-1`. -/
def hasCell (column : Nat) (l : Line) : Bool := decide (column + 1 < l.1.length)

/-- One pass of `format` over the lines at the column `widths.length`:
`block` and `width` are the column block being collected and its width so
far; a line without a cell in the column closes the block, which `inner`
formats one column further to the right, and is printed itself. -/
def formatAux (inner : List Nat → List Line → Text) (widths : List Nat) :
    List Line → Nat → List Line → Text
  | block, width, [] =>
      if block.isEmpty then [] else inner (widths ++ [width]) block
  | block, width, l :: ls =>
      if hasCell widths.length l then
        formatAux inner widths (block ++ [l])
          (max width ((l.1.getD widths.length []).length + padding)) ls
      else
        (if block.isEmpty then [] else inner (widths ++ [width]) block)
          ++ writeLine widths l ++ formatAux inner widths [] minwidth ls

/-- Go's recursive `format`, `depth` bounding the columns still to visit. -/
def format : Nat → List Nat → List Line → Text
  | 0, widths, ls => writeLines widths ls
  | depth + 1, widths, ls => formatAux (format depth) widths [] minwidth ls

/-- Largest number of cells in a line. -/
def maxCells (ls : List Line) : Nat := (ls.map (fun l => l.1.length)).foldr max 0

/-- Go's `Flush`: a non-empty current cell is terminated, every buffered
line is formatted and written, and the buffer is reset. -/
def Writer.Flush (b : Writer) : Writer :=
  let last : List Text := if b.cell.isEmpty then b.line else b.line ++ [b.cell]
  let ls : List Line := b.lines.map (fun l => (l, false)) ++ [(last, true)]
  ⟨b.out ++ format (maxCells ls) [] ls, [], [], []⟩

/-- One character of Go's `Write`. -/
def Writer.writeChar (b : Writer) (ch : Char) : Writer :=
  if ch = '\t' ∨ ch = '\x0b' then
    { b with line := b.line ++ [b.cell], cell := [] }
  else if ch = '\n' ∨ ch = '\x0c' then
    let b1 : Writer := { b with lines := b.lines ++ [b.line ++ [b.cell]], line := [], cell := [] }
    if ch = '\x0c' ∨ (b.line ++ [b.cell]).length = 1 then b1.Flush else b1
  else
    { b with cell := b.cell ++ [ch] }

/-- Go's `Write` (what `fmt.Fprintf(tw, ...)` calls with the formatted text). -/
def Writer.Write (b : Writer) (text : Text) : Writer := text.foldl Writer.writeChar b

/-! ## Data model (`vim25/types`, `vim25/mo`, `object`) -/

/-- Modelled from the spec: `types.SharesLevel` is declared outside this
file; the spec gives the levels `Custom`, `Normal`, `High`, `Low`. -/
inductive SharesLevel where
  | low | normal | high | custom
  deriving DecidableEq, Repr

/-- Modelled from the spec: the text `%s` prints for a `types.SharesLevel`
("the level name", written `Custom` in the spec's example). -/
def SharesLevel.name : SharesLevel → Text
  | SharesLevel.low => "Low".toList
  | SharesLevel.normal => "Normal".toList
  | SharesLevel.high => "High".toList
  | SharesLevel.custom => "Custom".toList

/-- Modelled from the spec: `types.SharesInfo` is declared outside this
file; the fields are those `writeInfo` reads (the share count and the
level, the spec's `shares`). -/
structure SharesInfo where
  Shares : Int
  Level : SharesLevel
  deriving DecidableEq, Repr

/-- Modelled from the spec: `types.ResourceAllocationInfo` is declared
outside this file; the fields are those `writeInfo` reads (the spec's
`AllocationInfo`).  `ExpandableReservation` is the only optional one:
`writeInfo` dereferences it as a `*bool`, and `none` is the nil pointer. -/
structure ResourceAllocationInfo where
  Reservation : Int
  ExpandableReservation : Option Bool
  Limit : Int
  Shares : SharesInfo
  deriving DecidableEq, Repr

/-- Modelled from the spec: `types.ResourcePoolResourceUsage` is declared
outside this file; the fields are those `writeInfo` reads (the spec's
`UsageSnapshot`). -/
structure ResourcePoolResourceUsage where
  OverallUsage : Int
  MaxUsage : Int
  deriving DecidableEq, Repr

/-- Modelled from the spec: `types.ResourcePoolRuntimeInfo` is declared
outside this file; the fields are those `infoResult.Write` reads. -/
structure ResourcePoolRuntimeInfo where
  Cpu : ResourcePoolResourceUsage
  Memory : ResourcePoolResourceUsage
  deriving DecidableEq, Repr

/-- Modelled from the spec: `types.ResourceConfigSpec` is declared outside
this file; the fields are those `infoResult.Write` reads. -/
structure ResourceConfigSpec where
  CpuAllocation : ResourceAllocationInfo
  MemoryAllocation : ResourceAllocationInfo
  deriving DecidableEq, Repr

/-- Modelled from the spec: `mo.ResourcePool` is declared outside this
file; the fields are the properties `infoResult.Write` reads (the spec's
`ResourcePoolRecord`). -/
structure ResourcePool where
  Name : Text
  Config : ResourceConfigSpec
  Runtime : ResourcePoolRuntimeInfo
  deriving DecidableEq, Repr

/-- Modelled from the spec: `types.ManagedObjectReference` is declared
outside this file; an identifier made of the kind of object (Go field
`Type`) and a value (the spec's `ObjectReference`). -/
structure ManagedObjectReference where
  Kind : Text
  Value : Text
  deriving DecidableEq, Repr

/-- Modelled from the spec: `object.ResourcePool` is declared outside this
file; `Run` only asks the object a pattern resolved to for its reference. -/
structure ObjectResourcePool where
  ref : ManagedObjectReference
  deriving DecidableEq, Repr

/-- Modelled from the spec: Go `o.Reference()`, the reference of the object. -/
def ObjectResourcePool.Reference (o : ObjectResourcePool) : ManagedObjectReference := o.ref

/-- Go `infoResult`. -/
structure infoResult where
  ResourcePools : List ResourcePool
  objects : List ObjectResourcePool
  deriving DecidableEq, Repr

/-! ## `writeInfo` and `infoResult.Write` -/

/-- The local `usage` of `writeInfo`:
`100.0 * float64(ru.OverallUsage) / float64(ru.MaxUsage)`. -/
def usage (ru : ResourcePoolResourceUsage) : Float64 :=
  Float64.div (Float64.mul (Float64.ofInt 100) (Float64.ofInt ru.OverallUsage))
    (Float64.ofInt ru.MaxUsage)

/-- The local `shares` of `writeInfo`: empty unless the level is custom. -/
def sharesSuffix (ra : ResourceAllocationInfo) : Text :=
  if ra.Shares.Level = SharesLevel.custom then
    " (".toList ++ fmtD ra.Shares.Shares ++ ")".toList
  else []

/-- The local `limit` of `writeInfo`: `unlimited` unless `ra.Limit != -1`. -/
def limitText (units : Text) (ra : ResourceAllocationInfo) : Text :=
  if ra.Limit ≠ -1 then fmtD ra.Limit ++ units else "unlimited".toList

/-- Text of `fmt.Fprintf(w, "  %s Usage:\t%d%s (%0.1f%%)\n", ...)`. -/
def usageLine (name units : Text) (ru : ResourcePoolResourceUsage) : Text :=
  "  ".toList ++ name ++ " Usage:\t".toList ++ fmtD ru.OverallUsage ++ units
    ++ " (".toList ++ fmtF1 (usage ru) ++ "%)\n".toList

/-- Text of `fmt.Fprintf(w, "  %s Shares:\t%s%s\n", ...)`. -/
def sharesLine (name : Text) (ra : ResourceAllocationInfo) : Text :=
  "  ".toList ++ name ++ " Shares:\t".toList ++ ra.Shares.Level.name ++ sharesSuffix ra
    ++ "\n".toList

/-- Text of `fmt.Fprintf(w, "  %s Reservation:\t%d%s (expandable=%v)\n", ...)`
once `*ra.ExpandableReservation` has been read as `b`. -/
def reservationLine (name units : Text) (ra : ResourceAllocationInfo) (b : Bool) : Text :=
  "  ".toList ++ name ++ " Reservation:\t".toList ++ fmtD ra.Reservation ++ units
    ++ " (expandable=".toList ++ fmtBool b ++ ")\n".toList

/-- Text of `fmt.Fprintf(w, "  %s Limit:\t%s\n", ...)`. -/
def limitLine (name units : Text) (ra : ResourceAllocationInfo) : Text :=
  "  ".toList ++ name ++ " Limit:\t".toList ++ limitText units ra ++ "\n".toList

/-- Go `writeInfo`: four `Fprintf` calls on the tab writer; `none` is the
nil-pointer panic of `*ra.ExpandableReservation`, raised while the
arguments of the third call are evaluated. -/
def writeInfo (w : Writer) (name units : Text) (ru : ResourcePoolResourceUsage)
    (ra : ResourceAllocationInfo) : Option Writer :=
  let w1 := w.Write (usageLine name units ru)
  let w2 := w1.Write (sharesLine name ra)
  match ra.ExpandableReservation with
  | none => none
  | some b =>
      let w3 := w2.Write (reservationLine name units ra b)
      some (w3.Write (limitLine name units ra))

/-- Body of the loop of `infoResult.Write` for one pool. -/
def writePool (tw : Writer) (pool : ResourcePool) : Option Writer :=
  let tw0 := tw.Write ("Name:\t".toList ++ pool.Name ++ "\n".toList)
  match writeInfo tw0 "CPU".toList "MHz".toList pool.Runtime.Cpu pool.Config.CpuAllocation with
  | none => none
  | some tw1 =>
      writeInfo tw1 "Mem".toList "MB".toList pool.Runtime.Memory pool.Config.MemoryAllocation

/-- The loop of `infoResult.Write` over `r.ResourcePools`. -/
def writePools : Writer → List ResourcePool → Option Writer
  | tw, [] => some tw
  | tw, pool :: pools =>
      match writePool tw pool with
      | none => none
      | some tw1 => writePools tw1 pools

/-- Go `infoResult.Write` on a fresh tab writer: the bytes that reach `w`
once `tw.Flush()` has run, or `none` when rendering panics. -/
def infoResult.Write (r : infoResult) : Option Text :=
  match writePools NewWriter r.ResourcePools with
  | none => none
  | some tw => some tw.Flush.out

/-! ## `info.Run` and its collaborators -/

/-- A Go `error` value: `flag.ErrHelp`, or an error of a collaborator. -/
inductive GoError where
  | ErrHelp
  | other (msg : Text)
  deriving DecidableEq, Repr

/-- A call `Run` makes to a collaborator, with its arguments. -/
inductive Call where
  | Client
  | Finder
  | ResourcePoolList (arg : Text)
  | Retrieve (refs : List ManagedObjectReference) (props : List Text)
  | WriteResult (res : infoResult)
  deriving DecidableEq, Repr

/-- The collaborators of `Run`, each a function of the state `σ` of the
outside world (session, inventory, output sink) returning its result and
the next state. -/
structure Collaborators (σ : Type) where
  JSON : Bool
  Client : σ → Except GoError Unit × σ
  Finder : σ → Except GoError Unit × σ
  ResourcePoolList : Text → σ → Except GoError (List ObjectResourcePool) × σ
  Retrieve : List ManagedObjectReference → List Text → σ → Except GoError (List ResourcePool) × σ
  WriteResult : infoResult → σ → Option GoError × σ

/-- What a run of `Run` leaves behind: the returned error (`none` is nil),
the collaborator calls in the order made, and the state of the world. -/
structure Outcome (σ : Type) where
  err : Option GoError
  calls : List Call
  world : σ

/-- The property list `props` of `Run`: nil with `-json`, else the five
paths of the report. -/
def propsFor (json : Bool) : List Text :=
  if json then []
  else ["name".toList, "config.cpuAllocation".toList, "config.memoryAllocation".toList,
    "runtime.cpu".toList, "runtime.memory".toList]

/-- The loop `for _, arg := range f.Args()` of `Run`: `objs` is
`res.objects` so far, `log` the calls so far. -/
def resolveLoop {σ : Type} (env : Collaborators σ) :
    List Text → List ObjectResourcePool → List Call → σ →
      Except GoError (List ObjectResourcePool) × List Call × σ
  | [], objs, log, s => (Except.ok objs, log, s)
  | arg :: args, objs, log, s =>
      match env.ResourcePoolList arg s with
      | (Except.error e, s1) => (Except.error e, log ++ [Call.ResourcePoolList arg], s1)
      | (Except.ok objects, s1) =>
          resolveLoop env args (objs ++ objects) (log ++ [Call.ResourcePoolList arg]) s1

/-- The tail of `Run` from `if len(res.objects) != 0`. -/
def fetchAndWrite {σ : Type} (env : Collaborators σ) (objs : List ObjectResourcePool)
    (log : List Call) (s : σ) : Outcome σ :=
  if objs.length ≠ 0 then
    let refs := objs.map ObjectResourcePool.Reference
    let props := propsFor env.JSON
    match env.Retrieve refs props s with
    | (Except.error e, s1) => ⟨some e, log ++ [Call.Retrieve refs props], s1⟩
    | (Except.ok pools, s1) =>
        let res : infoResult := ⟨pools, objs⟩
        let r := env.WriteResult res s1
        ⟨r.1, log ++ [Call.Retrieve refs props, Call.WriteResult res], r.2⟩
  else
    let res : infoResult := ⟨[], objs⟩
    let r := env.WriteResult res s
    ⟨r.1, log ++ [Call.WriteResult res], r.2⟩

/-- Go `info.Run` on the arguments `f.Args()`. -/
def Run {σ : Type} (env : Collaborators σ) (args : List Text) (s : σ) : Outcome σ :=
  if args.length = 0 then ⟨some GoError.ErrHelp, [], s⟩
  else
    match env.Client s with
    | (Except.error e, s1) => ⟨some e, [Call.Client], s1⟩
    | (Except.ok _, s1) =>
        match env.Finder s1 with
        | (Except.error e, s2) => ⟨some e, [Call.Client, Call.Finder], s2⟩
        | (Except.ok _, s2) =>
            match resolveLoop env args [] [Call.Client, Call.Finder] s2 with
            | (Except.error e, log, s3) => ⟨some e, log, s3⟩
            | (Except.ok objs, log, s3) => fetchAndWrite env objs log s3

/-! ## Notions used to state the results -/

/-- Resolving the patterns `args` one after the other from the world state
`s` succeeds every time, pattern `i` yielding `oss[i]`, and leaves the
world in state `t`. -/
inductive Resolved {σ : Type} (env : Collaborators σ) :
    List Text → σ → List (List ObjectResourcePool) → σ → Prop where
  | nil (s : σ) : Resolved env [] s [] s
  | cons {arg : Text} {args : List Text} {s s1 t : σ} {os : List ObjectResourcePool}
      {oss : List (List ObjectResourcePool)} :
      env.ResourcePoolList arg s = (Except.ok os, s1) → Resolved env args s1 oss t →
      Resolved env (arg :: args) s (os :: oss) t

/-- Whether a logged call is a `Retrieve`. -/
def Call.isRetrieve : Call → Bool
  | Call.Retrieve _ _ => true
  | _ => false

/-- Whether a logged call is a `WriteResult`. -/
def Call.isWriteResult : Call → Bool
  | Call.WriteResult _ => true
  | _ => false

/-- Whether a logged call is a `ResourcePoolList`. -/
def Call.isResourcePoolList : Call → Bool
  | Call.ResourcePoolList _ => true
  | _ => false

/-- The characters at which the tab writer ends a cell or a line. -/
def isBreak (c : Char) : Bool := c = '\t' || c = '\x0b' || c = '\n' || c = '\x0c'

/-- Text without tab, vertical tab, newline or form feed. -/
def Plain (t : Text) : Prop := ∀ c ∈ t, isBreak c = false

instance instDecidablePlain (t : Text) : Decidable (Plain t) := by
  unfold Plain
  infer_instance

/-- Width of a column block: the widest cell plus the padding, from `width`. -/
def blockWidth (column : Nat) (width : Nat) (ls : List Line) : Nat :=
  ls.foldl (fun w l => max w ((l.1.getD column []).length + padding)) width

/-- Text of `*ra.ExpandableReservation` under `%v`, for a pointer that is set. -/
def expandableText : Option Bool → Text
  | some b => fmtBool b
  | none => []

/-- Label and value of the four lines `writeInfo` writes. -/
def infoRows (name units : Text) (ru : ResourcePoolResourceUsage)
    (ra : ResourceAllocationInfo) : List (Text × Text) :=
  [ ("  ".toList ++ name ++ " Usage:".toList,
      fmtD ru.OverallUsage ++ units ++ " (".toList ++ fmtF1 (usage ru) ++ "%)".toList),
    ("  ".toList ++ name ++ " Shares:".toList, ra.Shares.Level.name ++ sharesSuffix ra),
    ("  ".toList ++ name ++ " Reservation:".toList,
      fmtD ra.Reservation ++ units ++ " (expandable=".toList
        ++ expandableText ra.ExpandableReservation ++ ")".toList),
    ("  ".toList ++ name ++ " Limit:".toList, limitText units ra) ]

/-- Label and value of the nine lines written for one pool. -/
def poolRows (p : ResourcePool) : List (Text × Text) :=
  ("Name:".toList, p.Name)
    :: (infoRows "CPU".toList "MHz".toList p.Runtime.Cpu p.Config.CpuAllocation
        ++ infoRows "Mem".toList "MB".toList p.Runtime.Memory p.Config.MemoryAllocation)

/-- The two cells of a buffered report line. -/
def cells (r : Text × Text) : List Text := [r.1, r.2]

/-- A report line as printed in a column `w` wide. -/
def alignRow (w : Nat) (r : Text × Text) : Text :=
  r.1 ++ writePadding r.1.length w ++ r.2 ++ ['\n']

/-- Every pool of the list has both `expandableReservation` pointers set. -/
def Complete (pools : List ResourcePool) : Prop :=
  ∀ p ∈ pools, p.Config.CpuAllocation.ExpandableReservation.isSome = true
    ∧ p.Config.MemoryAllocation.ExpandableReservation.isSome = true

instance instDecidableComplete (pools : List ResourcePool) : Decidable (Complete pools) := by
  unfold Complete
  infer_instance

/-- Width of the label column of buffered report lines. -/
def rowsWidth (w : Nat) (rows : List (Text × Text)) : Nat :=
  rows.foldl (fun w r => max w (r.1.length + padding)) w

/-- The four lines of one resource as they are printed, the label column
being 20 wide, for a three-letter resource name. -/
def alignedInfo (name units : Text) (ru : ResourcePoolResourceUsage)
    (ra : ResourceAllocationInfo) : Text :=
  "  ".toList ++ name ++ " Usage:        ".toList ++ fmtD ru.OverallUsage ++ units
      ++ " (".toList ++ fmtF1 (usage ru) ++ "%)\n".toList
    ++ "  ".toList ++ name ++ " Shares:       ".toList ++ ra.Shares.Level.name
      ++ sharesSuffix ra ++ "\n".toList
    ++ "  ".toList ++ name ++ " Reservation:  ".toList ++ fmtD ra.Reservation ++ units
      ++ " (expandable=".toList ++ expandableText ra.ExpandableReservation ++ ")\n".toList
    ++ "  ".toList ++ name ++ " Limit:        ".toList ++ limitText units ra ++ "\n".toList

/-- The block of one pool as it is printed: the `Name:` line, four `CPU`
lines in `MHz`, four `Mem` lines in `MB`. -/
def alignedBlock (p : ResourcePool) : Text :=
  "Name:               ".toList ++ p.Name ++ "\n".toList
    ++ alignedInfo "CPU".toList "MHz".toList p.Runtime.Cpu p.Config.CpuAllocation
    ++ alignedInfo "Mem".toList "MB".toList p.Runtime.Memory p.Config.MemoryAllocation

/-- A buffered report line as a `Line` that is not the last one. -/
def rowLine (r : Text × Text) : Line := (cells r, false)

/-- The text the four `Fprintf` calls of `writeInfo` hand to the tab
writer, for a set `expandableReservation`. -/
def infoText (name units : Text) (ru : ResourcePoolResourceUsage)
    (ra : ResourceAllocationInfo) : Text :=
  "  ".toList ++ name ++ " Usage:\t".toList ++ fmtD ru.OverallUsage ++ units
      ++ " (".toList ++ fmtF1 (usage ru) ++ "%)\n".toList
    ++ ("  ".toList ++ name ++ " Shares:\t".toList ++ ra.Shares.Level.name
      ++ sharesSuffix ra ++ "\n".toList)
    ++ ("  ".toList ++ name ++ " Reservation:\t".toList ++ fmtD ra.Reservation ++ units
      ++ " (expandable=".toList ++ expandableText ra.ExpandableReservation ++ ")\n".toList)
    ++ ("  ".toList ++ name ++ " Limit:\t".toList ++ limitText units ra ++ "\n".toList)

/-- The text `infoResult.Write` hands to the tab writer for one pool: the
`Name:` line, the four `CPU` lines in `MHz`, the four `Mem` lines in `MB`. -/
def blockText (p : ResourcePool) : Text :=
  "Name:\t".toList ++ p.Name ++ "\n".toList
    ++ infoText "CPU".toList "MHz".toList p.Runtime.Cpu p.Config.CpuAllocation
    ++ infoText "Mem".toList "MB".toList p.Runtime.Memory p.Config.MemoryAllocation

/-! ## Concrete inputs -/

/-- The allocation of the example: custom shares 2000, reservation 0,
limit -1, expandable reservation true. -/
def exampleAllocation : ResourceAllocationInfo :=
  { Reservation := 0, ExpandableReservation := some true, Limit := -1,
    Shares := { Shares := 2000, Level := SharesLevel.custom } }

/-- The pool of the example: `Resources`, usage 100 of 1000 for CPU and
for memory. -/
def resourcesPool : ResourcePool :=
  { Name := "Resources".toList,
    Config := { CpuAllocation := exampleAllocation, MemoryAllocation := exampleAllocation },
    Runtime := { Cpu := { OverallUsage := 100, MaxUsage := 1000 },
                 Memory := { OverallUsage := 100, MaxUsage := 1000 } } }

/-- The pool of the example with the CPU `expandableReservation` pointer nil. -/
def nilExpandablePool : ResourcePool :=
  { resourcesPool with
    Config := { CpuAllocation := { exampleAllocation with ExpandableReservation := none },
                MemoryAllocation := exampleAllocation } }

/-- A second pool, with normal shares, a limit and no capacity in use. -/
def otherPool : ResourcePool :=
  { Name := "pool-1".toList,
    Config := { CpuAllocation := ⟨500, some false, 4000, ⟨4000, SharesLevel.normal⟩⟩,
                MemoryAllocation := ⟨0, some true, -2, ⟨0, SharesLevel.high⟩⟩ },
    Runtime := { Cpu := { OverallUsage := 1, MaxUsage := 3 },
                 Memory := { OverallUsage := 25, MaxUsage := 100 } } }

/-- First object of the example inventory. -/
def obj1 : ObjectResourcePool := ⟨⟨"ResourcePool".toList, "resgroup-1".toList⟩⟩

/-- Second object of the example inventory. -/
def obj2 : ObjectResourcePool := ⟨⟨"ResourcePool".toList, "resgroup-2".toList⟩⟩

/-- Stub collaborators over a call counter: `*` matches both objects,
`pool-1` the first, `none*` nothing, and any other pattern fails. -/
def stubEnv : Collaborators Nat :=
  { JSON := false
    Client := fun n => (Except.ok (), n + 1)
    Finder := fun n => (Except.ok (), n + 1)
    ResourcePoolList := fun arg n =>
      if arg = "*".toList then (Except.ok [obj1, obj2], n + 1)
      else if arg = "pool-1".toList then (Except.ok [obj1], n + 1)
      else if arg = "none*".toList then (Except.ok [], n + 1)
      else (Except.error (GoError.other "not found".toList), n + 1)
    Retrieve := fun refs _ n => (Except.ok (refs.map (fun _ => resourcesPool)), n + 1)
    WriteResult := fun _ n => (none, n + 1) }

/-! ## Theorems: `info.Run` -/

theorem resolveLoop_append {σ : Type} (env : Collaborators σ) (rest : List Text) :
    ∀ (pre : List Text) (s t : σ) (oss : List (List ObjectResourcePool)),
      Resolved env pre s oss t →
      ∀ (objs : List ObjectResourcePool) (log : List Call),
        resolveLoop env (pre ++ rest) objs log s
          = resolveLoop env rest (objs ++ oss.flatten)
              (log ++ pre.map Call.ResourcePoolList) t := by
  intro pre s t oss h
  induction h with
  | nil s => intro objs log; simp
  | cons h1 _ ih =>
      intro objs log
      simp [resolveLoop, h1, ih, List.append_assoc]

theorem resolveLoop_resolved {σ : Type} (env : Collaborators σ)
    (args : List Text) (s t : σ) (oss : List (List ObjectResourcePool))
    (h : Resolved env args s oss t) (objs : List ObjectResourcePool) (log : List Call) :
    resolveLoop env args objs log s
      = (Except.ok (objs ++ oss.flatten), log ++ args.map Call.ResourcePoolList, t) := by
  have h1 := resolveLoop_append env [] args s t oss h objs log
  simpa [resolveLoop] using h1

/-- C1: with no arguments `Run` returns `flag.ErrHelp` and calls no
collaborator, leaving the world as it was. -/
theorem Run_no_args {σ : Type} (env : Collaborators σ) (s : σ) :
    (Run env [] s).err = some GoError.ErrHelp ∧ (Run env [] s).calls = []
      ∧ (Run env [] s).world = s := by
  simp [Run]

theorem filter_isRetrieve_map (args : List Text) :
    (args.map Call.ResourcePoolList).filter Call.isRetrieve = [] := by
  induction args with
  | nil => rfl
  | cons a as ih => simp [List.filter, Call.isRetrieve, ih]

theorem filter_isWriteResult_map (args : List Text) :
    (args.map Call.ResourcePoolList).filter Call.isWriteResult = [] := by
  induction args with
  | nil => rfl
  | cons a as ih => simp [List.filter, Call.isWriteResult, ih]

theorem filter_isResourcePoolList_map (args : List Text) :
    (args.map Call.ResourcePoolList).filter Call.isResourcePoolList
      = args.map Call.ResourcePoolList := by
  induction args with
  | nil => rfl
  | cons a as ih => simp [List.filter, Call.isResourcePoolList, ih]

theorem count_flatten_map (r : ManagedObjectReference) :
    ∀ oss : List (List ObjectResourcePool),
      (oss.flatten.map ObjectResourcePool.Reference).count r
        = (oss.map (fun os => (os.map ObjectResourcePool.Reference).count r)).sum := by
  intro oss
  induction oss with
  | nil => rfl
  | cons os oss ih =>
      simp only [List.flatten_cons, List.map_append, List.count_append, List.map_cons,
        List.sum_cons, ih]

theorem length_flatten_map :
    ∀ oss : List (List ObjectResourcePool),
      (oss.flatten.map ObjectResourcePool.Reference).length = (oss.map List.length).sum := by
  intro oss
  induction oss with
  | nil => rfl
  | cons os oss ih =>
      simp only [List.flatten_cons, List.map_append, List.length_append, List.map_cons,
        List.sum_cons, ih, List.length_map]

theorem Run_resolved {σ : Type} (env : Collaborators σ) (args : List Text) (s s1 s2 t : σ)
    (oss : List (List ObjectResourcePool)) (hargs : args ≠ [])
    (hc : env.Client s = (Except.ok (), s1)) (hf : env.Finder s1 = (Except.ok (), s2))
    (hr : Resolved env args s2 oss t) :
    Run env args s
      = fetchAndWrite env oss.flatten
          ([Call.Client, Call.Finder] ++ args.map Call.ResourcePoolList) t := by
  have hlen : args.length ≠ 0 := by
    intro h; exact hargs (List.length_eq_zero.mp h)
  have hl := resolveLoop_resolved env args s2 t oss hr [] [Call.Client, Call.Finder]
  simp only [List.nil_append] at hl
  simp [Run, hlen, hc, hf, hl]

/-- C7: when the argument list is not empty and every resolution succeeds
(pattern `i` yielding `oss[i]`), each pattern is resolved exactly once, in
argument order, and the `Retrieve` calls of the run are: none when the
concatenation of the results is empty, else exactly one, whose reference
list is the references of `oss[0] ++ oss[1] ++ ...` in that order.  Nothing
is deduplicated: each reference occurs as often as the per-pattern results
hold it, and the length is the sum of the per-pattern lengths. -/
theorem Run_retrieve_concat {σ : Type} (env : Collaborators σ) (args : List Text)
    (s s1 s2 t : σ) (oss : List (List ObjectResourcePool)) (hargs : args ≠ [])
    (hc : env.Client s = (Except.ok (), s1)) (hf : env.Finder s1 = (Except.ok (), s2))
    (hr : Resolved env args s2 oss t) :
    (Run env args s).calls.filter Call.isResourcePoolList = args.map Call.ResourcePoolList
    ∧ (Run env args s).calls.filter Call.isRetrieve
        = (if oss.flatten = [] then []
           else [Call.Retrieve (oss.flatten.map ObjectResourcePool.Reference)
                  (propsFor env.JSON)])
    ∧ (oss.flatten.map ObjectResourcePool.Reference).length = (oss.map List.length).sum
    ∧ ∀ r : ManagedObjectReference,
        (oss.flatten.map ObjectResourcePool.Reference).count r
          = (oss.map (fun os => (os.map ObjectResourcePool.Reference).count r)).sum := by
  rw [Run_resolved env args s s1 s2 t oss hargs hc hf hr]
  refine ⟨?_, ?_, length_flatten_map oss, fun r => count_flatten_map r oss⟩
  · unfold fetchAndWrite
    by_cases h : oss.flatten = []
    · simp [h, List.filter_append, filter_isResourcePoolList_map, List.filter,
        Call.isResourcePoolList]
    · have h2 : oss.flatten.length ≠ 0 := fun h3 => h (List.length_eq_zero.mp h3)
      simp only [h2, ne_eq, not_false_eq_true, if_true]
      cases hq : env.Retrieve (oss.flatten.map ObjectResourcePool.Reference)
          (propsFor env.JSON) t with
      | mk r s3 =>
        cases r <;>
          simp [List.filter_append, filter_isResourcePoolList_map, List.filter,
            Call.isResourcePoolList]
  · unfold fetchAndWrite
    by_cases h : oss.flatten = []
    · simp [h, List.filter_append, filter_isRetrieve_map, List.filter, Call.isRetrieve]
    · have h2 : oss.flatten.length ≠ 0 := fun h3 => h (List.length_eq_zero.mp h3)
      simp only [h2, ne_eq, not_false_eq_true, if_true, h, if_false]
      cases hq : env.Retrieve (oss.flatten.map ObjectResourcePool.Reference)
          (propsFor env.JSON) t with
      | mk r s3 =>
        cases r <;>
          simp [List.filter_append, filter_isRetrieve_map, List.filter, Call.isRetrieve]

/-- C8: when the patterns before `a` resolve and resolving `a` fails with
`e`, `Run` returns `e` itself; the calls made are `Client`, `Finder` and one
resolution for each pattern up to and including `a`, so there is no
`Retrieve` call, no resolution of a later pattern and no `WriteResult`. -/
theorem Run_resolution_error {σ : Type} (env : Collaborators σ) (pre post : List Text)
    (a : Text) (s s1 s2 s3 s4 : σ) (oss : List (List ObjectResourcePool)) (e : GoError)
    (hc : env.Client s = (Except.ok (), s1)) (hf : env.Finder s1 = (Except.ok (), s2))
    (hr : Resolved env pre s2 oss s3)
    (he : env.ResourcePoolList a s3 = (Except.error e, s4)) :
    (Run env (pre ++ a :: post) s).err = some e
    ∧ (Run env (pre ++ a :: post) s).calls
        = [Call.Client, Call.Finder] ++ (pre ++ [a]).map Call.ResourcePoolList
    ∧ (Run env (pre ++ a :: post) s).world = s4
    ∧ (Run env (pre ++ a :: post) s).calls.filter Call.isRetrieve = []
    ∧ (Run env (pre ++ a :: post) s).calls.filter Call.isWriteResult = [] := by
  have hl := resolveLoop_append env (a :: post) pre s2 s3 oss hr [] [Call.Client, Call.Finder]
  have hrun : Run env (pre ++ a :: post) s
      = ⟨some e, [Call.Client, Call.Finder] ++ (pre ++ [a]).map Call.ResourcePoolList, s4⟩ := by
    simp [Run, hc, hf, hl, resolveLoop, he]
  rw [hrun]
  refine ⟨rfl, rfl, rfl, ?_, ?_⟩
  · simp [List.filter_append, filter_isRetrieve_map, List.filter, Call.isRetrieve]
  · simp [List.filter_append, filter_isWriteResult_map, List.filter, Call.isWriteResult]

/-- C9: when the argument list is not empty and every pattern resolves to
no object, `Run` makes no `Retrieve` call, hands `WriteResult` a result with
no records, and returns what `WriteResult` returns (the empty resolution is
no error of its own); the tabular report of that result is empty. -/
theorem Run_no_matches {σ : Type} (env : Collaborators σ) (args : List Text)
    (s s1 s2 t : σ) (oss : List (List ObjectResourcePool)) (hargs : args ≠ [])
    (hc : env.Client s = (Except.ok (), s1)) (hf : env.Finder s1 = (Except.ok (), s2))
    (hr : Resolved env args s2 oss t) (hnone : ∀ os ∈ oss, os = []) :
    (Run env args s).calls
        = [Call.Client, Call.Finder] ++ args.map Call.ResourcePoolList
            ++ [Call.WriteResult ⟨[], []⟩]
    ∧ (Run env args s).calls.filter Call.isRetrieve = []
    ∧ (Run env args s).err = (env.WriteResult ⟨[], []⟩ t).1
    ∧ (Run env args s).world = (env.WriteResult ⟨[], []⟩ t).2
    ∧ infoResult.Write ⟨[], []⟩ = some [] := by
  have hflat : oss.flatten = [] := by
    rw [List.flatten_eq_nil_iff]; exact hnone
  rw [Run_resolved env args s s1 s2 t oss hargs hc hf hr, hflat]
  refine ⟨by simp [fetchAndWrite], ?_, by simp [fetchAndWrite], by simp [fetchAndWrite], by decide⟩
  simp [fetchAndWrite, List.filter_append, filter_isRetrieve_map, List.filter, Call.isRetrieve]

/-! ## `float64` helpers -/

theorem bitLenAux_zero (f : Nat) : bitLenAux f 0 = 0 := by
  cases f <;> simp [bitLenAux]

theorem bitLenAux_bounds : ∀ (f n : Nat), n ≤ f →
    n < 2 ^ bitLenAux f n ∧ (n ≠ 0 → 2 ^ (bitLenAux f n - 1) ≤ n) := by
  intro f
  induction f with
  | zero =>
      intro n h
      have h0 : n = 0 := by omega
      subst h0
      simp [bitLenAux]
  | succ f ih =>
      intro n h
      by_cases h0 : n = 0
      · subst h0; simp [bitLenAux]
      · have hhalf : n / 2 ≤ f := by omega
        obtain ⟨h1, h2⟩ := ih (n / 2) hhalf
        simp only [bitLenAux, h0, if_false, Nat.add_sub_cancel]
        refine ⟨?_, fun _ => ?_⟩
        · rw [Nat.pow_succ]; omega
        · by_cases h3 : n / 2 = 0
          · rw [h3, bitLenAux_zero]; simp; omega
          · have h4 := h2 h3
            have h5 : bitLenAux f (n / 2) ≠ 0 := by
              intro h6
              rw [h6] at h1
              simp at h1
              exact h3 h1
            have h6 : 2 ^ bitLenAux f (n / 2) = 2 * 2 ^ (bitLenAux f (n / 2) - 1) := by
              rw [← Nat.pow_succ']
              congr 1
              omega
            rw [h6]; omega

/-- The halvings allowed to `bitLen` are enough: `bitLen n` is the number
of binary digits of `n`. -/
theorem bitLen_bounds (n : Nat) :
    n < 2 ^ bitLen n ∧ (n ≠ 0 → 2 ^ (bitLen n - 1) ≤ n) :=
  bitLenAux_bounds n n (Nat.le_refl n)

/-! ## Text of the `fmt` verbs -/

theorem digitChar_isDigit (n : Nat) : (Nat.digitChar (n % 10)).isDigit = true := by
  have h : n % 10 < 10 := Nat.mod_lt _ (by decide)
  interval_cases (n % 10) <;> decide

theorem toDigitsCore_isDigit : ∀ (fuel n : Nat) (ds : List Char),
    (∀ c ∈ ds, c.isDigit = true) → ∀ c ∈ Nat.toDigitsCore 10 fuel n ds, c.isDigit = true := by
  intro fuel
  induction fuel with
  | zero => intro n ds h c hc; exact h c (by simpa [Nat.toDigitsCore] using hc)
  | succ f ih =>
      intro n ds h c hc
      have hd : ∀ c ∈ Nat.digitChar (n % 10) :: ds, c.isDigit = true := by
        intro c hc
        rcases List.mem_cons.mp hc with h1 | h1
        · rw [h1]; exact digitChar_isDigit n
        · exact h c h1
      simp only [Nat.toDigitsCore] at hc
      split at hc
      · exact hd c hc
      · exact ih _ _ hd c hc

theorem toDigitsCore_ne_nil : ∀ (fuel n : Nat) (ds : List Char),
    ds ≠ [] → Nat.toDigitsCore 10 fuel n ds ≠ [] := by
  intro fuel
  induction fuel with
  | zero => intro n ds h; simpa [Nat.toDigitsCore] using h
  | succ f ih =>
      intro n ds _
      simp only [Nat.toDigitsCore]
      split
      · simp
      · exact ih _ _ (by simp)

theorem toDigits_isDigit (n : Nat) : ∀ c ∈ Nat.toDigits 10 n, c.isDigit = true :=
  toDigitsCore_isDigit (n + 1) n [] (by simp)

theorem toDigits_ne_nil (n : Nat) : Nat.toDigits 10 n ≠ [] := by
  unfold Nat.toDigits
  simp only [Nat.toDigitsCore]
  split
  · simp
  · exact toDigitsCore_ne_nil _ _ _ (by simp)

theorem isDigit_not_break (c : Char) (h : c.isDigit = true) : isBreak c = false := by
  cases hb : isBreak c with
  | false => rfl
  | true =>
      simp only [isBreak, Bool.or_eq_true, decide_eq_true_eq] at hb
      rcases hb with ((h1 | h1) | h1) | h1 <;> rw [h1] at h <;> exact absurd h (by decide)

theorem plain_append {s t : Text} (hs : Plain s) (ht : Plain t) : Plain (s ++ t) := by
  intro c hc
  rcases List.mem_append.mp hc with h | h
  · exact hs c h
  · exact ht c h

theorem plain_toDigits (n : Nat) : Plain (Nat.toDigits 10 n) :=
  fun c hc => isDigit_not_break c (toDigits_isDigit n c hc)

theorem plain_fmtD (v : Int) : Plain (fmtD v) := by
  cases v with
  | ofNat n => exact plain_toDigits n
  | negSucc n =>
      intro c hc
      rcases List.mem_cons.mp hc with h | h
      · rw [h]; decide
      · exact plain_toDigits _ c h

theorem plain_fmtBool (b : Bool) : Plain (fmtBool b) := by
  cases b <;> (intro c hc; revert c; decide)

theorem plain_fmtF1 (x : Float64) : Plain (fmtF1 x) := by
  cases x with
  | nan => intro c; revert c; decide
  | inf neg => cases neg <;> (intro c; revert c; decide)
  | fin neg m e =>
      simp only [fmtF1]
      refine plain_append (plain_append ?_ (plain_toDigits _)) ?_
      · cases neg <;> (intro c; revert c; decide)
      · intro c hc
        rcases List.mem_cons.mp hc with h | h
        · rw [h]; decide
        · exact plain_toDigits _ c h

theorem plain_levelName (l : SharesLevel) : Plain l.name := by
  cases l <;> (intro c; revert c; decide)

/-- The first character of `%d` text is a minus sign or a digit. -/
theorem fmtD_head (v : Int) :
    ∃ c cs, fmtD v = c :: cs ∧ (c = '-' ∨ c.isDigit = true) := by
  cases v with
  | ofNat n =>
      cases h : Nat.toDigits 10 n with
      | nil => exact absurd h (toDigits_ne_nil n)
      | cons c cs =>
          refine ⟨c, cs, by simp [fmtD, h], Or.inr ?_⟩
          exact toDigits_isDigit n c (by simp [h])
  | negSucc n => exact ⟨'-', _, rfl, Or.inl rfl⟩

theorem fmtD_append_ne_unlimited (v : Int) (units : Text) :
    fmtD v ++ units ≠ "unlimited".toList := by
  obtain ⟨c, cs, h, hc⟩ := fmtD_head v
  rw [h]
  intro heq
  have h0 : c = 'u' := by
    have := congrArg List.head? heq
    simpa using this
  rcases hc with h1 | h1
  · rw [h0] at h1; exact absurd h1 (by decide)
  · rw [h0] at h1; exact absurd h1 (by decide)

/-! ## `writeInfo` -/

/-- C2: `writeInfo` writes its Limit line exactly when it completes (the
`expandableReservation` pointer is set), as the fourth `Fprintf`; the text
after the label is `unlimited` if and only if `limit == -1`, and for every
other value, negative ones included, the `%d` rendering of the value
followed by the unit suffix. -/
theorem writeInfo_limit_line (w : Writer) (name units : Text)
    (ru : ResourcePoolResourceUsage) (ra : ResourceAllocationInfo) :
    writeInfo w name units ru ra
        = ra.ExpandableReservation.map (fun b =>
            (((w.Write (usageLine name units ru)).Write (sharesLine name ra)).Write
              (reservationLine name units ra b)).Write
              ("  ".toList ++ name ++ " Limit:\t".toList ++ limitText units ra ++ "\n".toList))
    ∧ (limitText units ra = "unlimited".toList ↔ ra.Limit = -1)
    ∧ limitText units ra
        = (if ra.Limit = -1 then "unlimited".toList else fmtD ra.Limit ++ units) := by
  refine ⟨?_, ?_, ?_⟩
  · unfold writeInfo
    cases ra.ExpandableReservation <;> rfl
  · unfold limitText
    by_cases h : ra.Limit = -1
    · simp [h]
    · simp only [ne_eq, h, not_false_eq_true, if_true, iff_false]
      exact fmtD_append_ne_unlimited _ _
  · unfold limitText
    by_cases h : ra.Limit = -1 <;> simp [h]

/-- C3: `writeInfo` writes its Shares line as the second `Fprintf`; the text
after the label is the level name alone when the level is not custom, and
the level name followed by ` (n)` with `n` the stored share count when it
is custom; for a level that is not custom the line is the same whatever
the stored count. -/
theorem writeInfo_shares_line (w : Writer) (name units : Text)
    (ru : ResourcePoolResourceUsage) (ra : ResourceAllocationInfo) :
    writeInfo w name units ru ra
        = ra.ExpandableReservation.map (fun b =>
            (((w.Write (usageLine name units ru)).Write
              ("  ".toList ++ name ++ " Shares:\t".toList
                ++ (if ra.Shares.Level = SharesLevel.custom then
                      ra.Shares.Level.name ++ " (".toList ++ fmtD ra.Shares.Shares
                        ++ ")".toList
                    else ra.Shares.Level.name)
                ++ "\n".toList)).Write
              (reservationLine name units ra b)).Write (limitLine name units ra))
    ∧ ∀ (n : Int) (level : SharesLevel), level ≠ SharesLevel.custom →
        sharesLine name { ra with Shares := ⟨n, level⟩ }
          = "  ".toList ++ name ++ " Shares:\t".toList ++ level.name ++ "\n".toList := by
  refine ⟨?_, ?_⟩
  · have hline : sharesLine name ra
        = "  ".toList ++ name ++ " Shares:\t".toList
            ++ (if ra.Shares.Level = SharesLevel.custom then
                  ra.Shares.Level.name ++ " (".toList ++ fmtD ra.Shares.Shares
                    ++ ")".toList
                else ra.Shares.Level.name)
            ++ "\n".toList := by
      unfold sharesLine sharesSuffix
      by_cases h : ra.Shares.Level = SharesLevel.custom
      · simp [h]
      · simp [h]
    unfold writeInfo
    rw [hline]
    cases ra.ExpandableReservation <;> rfl
  · intro n level h
    simp [sharesLine, sharesSuffix, h]

/-- C4 (behaviour of the code): with `maxUsage == 0` the usage percentage is
`0/0` or `x/0` in `float64`, so `%0.1f` prints `NaN`, `+Inf` or `-Inf`, and
never `0.0`; that text is what the Usage line carries between `(` and `%)`. -/
theorem usage_zero_max (overall : Int) :
    (fmtF1 (usage ⟨overall, 0⟩) = "NaN".toList ∨ fmtF1 (usage ⟨overall, 0⟩) = "+Inf".toList
      ∨ fmtF1 (usage ⟨overall, 0⟩) = "-Inf".toList)
    ∧ fmtF1 (usage ⟨overall, 0⟩) ≠ "0.0".toList
    ∧ ∀ name units : Text, usageLine name units ⟨overall, 0⟩
        = "  ".toList ++ name ++ " Usage:\t".toList ++ fmtD overall ++ units
            ++ " (".toList ++ fmtF1 (usage ⟨overall, 0⟩) ++ "%)\n".toList := by
  have key : ∀ x : Float64, Float64.div x (Float64.ofInt 0) = Float64.nan
      ∨ Float64.div x (Float64.ofInt 0) = Float64.inf false
      ∨ Float64.div x (Float64.ofInt 0) = Float64.inf true := by
    intro x
    have h0 : Float64.ofInt 0 = Float64.fin false 0 0 := by decide
    rw [h0]
    cases x with
    | nan => left; rfl
    | inf neg => cases neg <;> simp [Float64.div]
    | fin neg m e =>
        cases neg <;> by_cases hm : m = 0 <;> simp [Float64.div, hm]
  have h := key (Float64.mul (Float64.ofInt 100) (Float64.ofInt overall))
  have hu : usage ⟨overall, 0⟩
      = Float64.div (Float64.mul (Float64.ofInt 100) (Float64.ofInt overall))
          (Float64.ofInt 0) := rfl
  have hAB : (fmtF1 (usage ⟨overall, 0⟩) = "NaN".toList
      ∨ fmtF1 (usage ⟨overall, 0⟩) = "+Inf".toList
      ∨ fmtF1 (usage ⟨overall, 0⟩) = "-Inf".toList)
      ∧ fmtF1 (usage ⟨overall, 0⟩) ≠ "0.0".toList := by
    rw [hu]
    rcases h with h | h | h <;> rw [h] <;> decide
  exact ⟨hAB.1, hAB.2, fun _ _ => rfl⟩

/-! ## The tab writer -/

theorem writeChar_plain (b : Writer) (c : Char) (h : isBreak c = false) :
    b.writeChar c = { b with cell := b.cell ++ [c] } := by
  simp only [isBreak, Bool.or_eq_false_iff, decide_eq_false_iff_not] at h
  obtain ⟨⟨⟨h1, h2⟩, h3⟩, h4⟩ := h
  simp [Writer.writeChar, h1, h2, h3, h4]

theorem Write_plain (t : Text) (h : Plain t) :
    ∀ b : Writer, b.Write t = { b with cell := b.cell ++ t } := by
  induction t with
  | nil => intro b; simp [Writer.Write]
  | cons c t ih =>
      intro b
      have hc : isBreak c = false := h c (by simp)
      have ht : Plain t := fun d hd => h d (by simp [hd])
      have h1 : b.Write (c :: t) = (b.writeChar c).Write t := rfl
      rw [h1, writeChar_plain b c hc, ih ht]
      simp

theorem Write_append (b : Writer) (s t : Text) :
    b.Write (s ++ t) = (b.Write s).Write t := by
  simp [Writer.Write, List.foldl_append]

/-- A line `label \t value \n` of plain text, written at the start of a
line, is buffered as a line of two cells; nothing is flushed. -/
theorem Write_row (b : Writer) (c r : Text) (hc : Plain c) (hr : Plain r)
    (hl : b.line = []) (hcell : b.cell = []) :
    b.Write (c ++ '\t' :: (r ++ ['\n'])) = { b with lines := b.lines ++ [[c, r]] } := by
  rw [Write_append, Write_plain c hc]
  have h1 : ∀ (w : Writer) (t : Text), w.Write ('\t' :: t) = (w.writeChar '\t').Write t :=
    fun _ _ => rfl
  rw [h1, Write_append]
  have h2 : ({ b with cell := b.cell ++ c } : Writer).writeChar '\t'
      = { b with line := [c], cell := [] } := by
    simp [Writer.writeChar, hl, hcell]
  rw [h2, Write_plain r hr]
  have h3 : ∀ (w : Writer), w.Write ['\n'] = w.writeChar '\n' := fun _ => rfl
  rw [h3]
  cases b with
  | mk out lines line cell =>
      simp only at hl hcell
      subst hl hcell
      simp [Writer.writeChar]

theorem formatAux_congr (inner1 inner2 : List Nat → List Line → Text) (widths : List Nat) :
    ∀ (ls block : List Line) (width : Nat),
      (∀ (w : Nat) (blk : List Line), (∀ l ∈ blk, l ∈ block ++ ls) →
        inner1 (widths ++ [w]) blk = inner2 (widths ++ [w]) blk) →
      formatAux inner1 widths block width ls = formatAux inner2 widths block width ls := by
  intro ls
  induction ls with
  | nil =>
      intro block width h
      simp only [formatAux]
      rw [h width block (by simp)]
  | cons l ls ih =>
      intro block width h
      simp only [formatAux]
      split
      · exact ih _ _ (fun w blk hb => h w blk (by simpa using hb))
      · rw [h width block (fun x hx => by simp [hx])]
        rw [ih [] minwidth (fun w blk hb => h w blk (fun x hx => by
          have := hb x hx
          simp at this
          simp [this]))]

/-- Lines none of which has a cell in the current column are printed as
they are. -/
theorem formatAux_no_cell (inner : List Nat → List Line → Text) (widths : List Nat) :
    ∀ (ls : List Line) (width : Nat), (∀ l ∈ ls, hasCell widths.length l = false) →
      formatAux inner widths [] width ls = writeLines widths ls := by
  intro ls
  induction ls with
  | nil => intro width _; simp [formatAux, writeLines]
  | cons l ls ih =>
      intro width h
      have hl : hasCell widths.length l = false := h l (by simp)
      simp only [formatAux, hl]
      rw [ih minwidth (fun x hx => h x (by simp [hx]))]
      simp [writeLines]

/-- Lines that all have a cell in the current column, followed by one
that has none, form one block. -/
theorem formatAux_block (inner : List Nat → List Line → Text) (widths : List Nat)
    (last : Line) (hlast : hasCell widths.length last = false) :
    ∀ (ls block : List Line) (width : Nat), (∀ l ∈ ls, hasCell widths.length l = true) →
      formatAux inner widths block width (ls ++ [last])
        = (if (block ++ ls).isEmpty then []
           else inner (widths ++ [blockWidth widths.length width ls]) (block ++ ls))
          ++ writeLine widths last := by
  intro ls
  induction ls with
  | nil =>
      intro block width _
      simp [formatAux, hlast, blockWidth]
  | cons l ls ih =>
      intro block width h
      have hl : hasCell widths.length l = true := h l (by simp)
      have hstep : formatAux inner widths block width ((l :: ls) ++ [last])
          = formatAux inner widths (block ++ [l])
              (max width ((l.1.getD widths.length []).length + padding)) (ls ++ [last]) := by
        simp only [List.cons_append, formatAux, hl, if_true]
        rfl
      rw [hstep, ih _ _ (fun x hx => h x (by simp [hx]))]
      simp [blockWidth]

theorem format_succ : ∀ (d : Nat) (widths : List Nat) (ls : List Line),
    (∀ l ∈ ls, l.1.length ≤ widths.length + d + 1) →
      format (d + 1) widths ls = format d widths ls := by
  intro d
  induction d with
  | zero =>
      intro widths ls h
      simp only [format]
      apply formatAux_no_cell
      intro l hl
      have := h l hl
      simp only [hasCell, decide_eq_false_iff_not]
      omega
  | succ d ih =>
      intro widths ls h
      simp only [format]
      apply formatAux_congr
      intro w blk hb
      apply ih
      intro l hl
      have h1 := hb l hl
      simp only [List.nil_append] at h1
      have := h l h1
      simp only [List.length_append, List.length_singleton]
      omega

/-- The depth given to `format` only has to reach past the last column:
any larger depth gives the same text. -/
theorem format_depth (d : Nat) (widths : List Nat) (ls : List Line)
    (h : ∀ l ∈ ls, l.1.length ≤ widths.length + d + 1) :
    ∀ k : Nat, format (d + k) widths ls = format d widths ls := by
  intro k
  induction k with
  | zero => rfl
  | succ k ih =>
      rw [← Nat.add_assoc, format_succ (d + k) widths ls (fun l hl => by
        have := h l hl
        omega), ih]

theorem le_maxCells (ls : List Line) : ∀ l ∈ ls, l.1.length ≤ maxCells ls := by
  induction ls with
  | nil => intro l hl; simp at hl
  | cons x xs ih =>
      intro l hl
      simp only [maxCells, List.map_cons, List.foldr_cons]
      rcases List.mem_cons.mp hl with h | h
      · rw [h]; exact Nat.le_max_left _ _
      · exact Nat.le_trans (ih l h) (Nat.le_max_right _ _)

theorem maxCells_le (n : Nat) (ls : List Line) (h : ∀ l ∈ ls, l.1.length ≤ n) :
    maxCells ls ≤ n := by
  induction ls with
  | nil => simp [maxCells]
  | cons x xs ih =>
      simp only [maxCells, List.map_cons, List.foldr_cons]
      exact Nat.max_le.mpr ⟨h x (by simp), ih (fun l hl => h l (by simp [hl]))⟩

/-- `Flush` may use any depth that is at least the largest number of cells. -/
theorem format_maxCells (n : Nat) (ls : List Line) (h : ∀ l ∈ ls, l.1.length ≤ n) :
    format (maxCells ls) [] ls = format n [] ls := by
  have hm : maxCells ls ≤ n := maxCells_le n ls h
  have h1 := format_depth (maxCells ls) [] ls
    (fun l hl => by have := le_maxCells ls l hl; simp only [List.length_nil]; omega)
    (n - maxCells ls)
  rw [← h1]
  congr 1
  omega

/-! ## `infoResult.Write` -/

theorem plain_of_all (t : Text) (h : t.all (fun c => !isBreak c) = true) : Plain t := by
  intro c hc
  have := List.all_eq_true.mp h c hc
  simpa using this

theorem plain_sharesSuffix (ra : ResourceAllocationInfo) : Plain (sharesSuffix ra) := by
  unfold sharesSuffix
  split
  · exact plain_append (plain_append (plain_of_all _ rfl) (plain_fmtD _)) (plain_of_all _ rfl)
  · intro c hc; simp at hc

theorem plain_limitText (units : Text) (hu : Plain units) (ra : ResourceAllocationInfo) :
    Plain (limitText units ra) := by
  unfold limitText
  split
  · exact plain_append (plain_fmtD _) hu
  · exact plain_of_all _ rfl

theorem Write_row_mk (out : Text) (lines : List (List Text)) (c r : Text)
    (hc : Plain c) (hr : Plain r) :
    (Writer.mk out lines [] []).Write (c ++ '\t' :: (r ++ ['\n']))
      = Writer.mk out (lines ++ [[c, r]]) [] [] :=
  Write_row (Writer.mk out lines [] []) c r hc hr rfl rfl

theorem writeInfo_rows (out : Text) (lines : List (List Text)) (name units : Text)
    (ru : ResourcePoolResourceUsage) (ra : ResourceAllocationInfo)
    (hn : Plain name) (hu : Plain units) (b : Bool)
    (hb : ra.ExpandableReservation = some b) :
    writeInfo (Writer.mk out lines [] []) name units ru ra
      = some (Writer.mk out (lines ++ (infoRows name units ru ra).map cells) [] []) := by
  have e1 : usageLine name units ru
      = ("  ".toList ++ name ++ " Usage:".toList) ++ '\t' ::
          ((fmtD ru.OverallUsage ++ units ++ " (".toList ++ fmtF1 (usage ru) ++ "%)".toList)
            ++ ['\n']) := by
    have a : " Usage:\t".toList = " Usage:".toList ++ ['\t'] := rfl
    have c : "%)\n".toList = "%)".toList ++ ['\n'] := rfl
    rw [usageLine, a, c]
    simp only [List.append_assoc, List.singleton_append, List.cons_append, List.nil_append]
  have e2 : sharesLine name ra
      = ("  ".toList ++ name ++ " Shares:".toList) ++ '\t' ::
          ((ra.Shares.Level.name ++ sharesSuffix ra) ++ ['\n']) := by
    have a : " Shares:\t".toList = " Shares:".toList ++ ['\t'] := rfl
    have c : "\n".toList = ['\n'] := rfl
    rw [sharesLine, a, c]
    simp only [List.append_assoc, List.singleton_append, List.cons_append, List.nil_append]
  have e3 : reservationLine name units ra b
      = ("  ".toList ++ name ++ " Reservation:".toList) ++ '\t' ::
          ((fmtD ra.Reservation ++ units ++ " (expandable=".toList
              ++ expandableText ra.ExpandableReservation ++ ")".toList) ++ ['\n']) := by
    have a : " Reservation:\t".toList = " Reservation:".toList ++ ['\t'] := rfl
    have c : ")\n".toList = ")".toList ++ ['\n'] := rfl
    rw [reservationLine, a, c, hb]
    simp only [List.append_assoc, List.singleton_append, List.cons_append, List.nil_append,
      expandableText]
  have e4 : limitLine name units ra
      = ("  ".toList ++ name ++ " Limit:".toList) ++ '\t' ::
          (limitText units ra ++ ['\n']) := by
    have a : " Limit:\t".toList = " Limit:".toList ++ ['\t'] := rfl
    have c : "\n".toList = ['\n'] := rfl
    rw [limitLine, a, c]
    simp only [List.append_assoc, List.singleton_append, List.cons_append, List.nil_append]
  have p0 : Plain "  ".toList := plain_of_all _ rfl
  have pl1 : Plain ("  ".toList ++ name ++ " Usage:".toList) :=
    plain_append (plain_append p0 hn) (plain_of_all _ rfl)
  have pl2 : Plain ("  ".toList ++ name ++ " Shares:".toList) :=
    plain_append (plain_append p0 hn) (plain_of_all _ rfl)
  have pl3 : Plain ("  ".toList ++ name ++ " Reservation:".toList) :=
    plain_append (plain_append p0 hn) (plain_of_all _ rfl)
  have pl4 : Plain ("  ".toList ++ name ++ " Limit:".toList) :=
    plain_append (plain_append p0 hn) (plain_of_all _ rfl)
  have pv1 : Plain (fmtD ru.OverallUsage ++ units ++ " (".toList ++ fmtF1 (usage ru)
      ++ "%)".toList) :=
    plain_append (plain_append (plain_append (plain_append (plain_fmtD _) hu)
      (plain_of_all _ rfl)) (plain_fmtF1 _)) (plain_of_all _ rfl)
  have pv2 : Plain (ra.Shares.Level.name ++ sharesSuffix ra) :=
    plain_append (plain_levelName _) (plain_sharesSuffix ra)
  have pv3 : Plain (fmtD ra.Reservation ++ units ++ " (expandable=".toList
      ++ expandableText ra.ExpandableReservation ++ ")".toList) := by
    rw [hb]
    exact plain_append (plain_append (plain_append (plain_append (plain_fmtD _) hu)
      (plain_of_all _ rfl)) (plain_fmtBool b)) (plain_of_all _ rfl)
  have pv4 : Plain (limitText units ra) := plain_limitText units hu ra
  unfold writeInfo
  simp only [hb]
  rw [e1, e2, e3, e4, Write_row_mk _ _ _ _ pl1 pv1, Write_row_mk _ _ _ _ pl2 pv2,
    Write_row_mk _ _ _ _ pl3 pv3, Write_row_mk _ _ _ _ pl4 pv4]
  simp [infoRows, cells]

theorem writePool_rows (out : Text) (lines : List (List Text)) (p : ResourcePool)
    (hn : Plain p.Name) (b1 b2 : Bool)
    (h1 : p.Config.CpuAllocation.ExpandableReservation = some b1)
    (h2 : p.Config.MemoryAllocation.ExpandableReservation = some b2) :
    writePool (Writer.mk out lines [] []) p
      = some (Writer.mk out (lines ++ (poolRows p).map cells) [] []) := by
  have e0 : "Name:\t".toList ++ p.Name ++ "\n".toList
      = "Name:".toList ++ '\t' :: (p.Name ++ ['\n']) := by
    have a : "Name:\t".toList = "Name:".toList ++ ['\t'] := rfl
    have c : "\n".toList = ['\n'] := rfl
    rw [a, c]
    simp only [List.append_assoc, List.singleton_append, List.cons_append, List.nil_append]
  unfold writePool
  simp only [e0]
  rw [Write_row_mk _ _ _ _ (plain_of_all "Name:".toList rfl) hn]
  rw [writeInfo_rows _ _ _ _ _ _ (plain_of_all "CPU".toList rfl)
    (plain_of_all "MHz".toList rfl) b1 h1]
  simp only
  rw [writeInfo_rows _ _ _ _ _ _ (plain_of_all "Mem".toList rfl)
    (plain_of_all "MB".toList rfl) b2 h2]
  simp [poolRows, cells]

theorem writePools_rows : ∀ (pools : List ResourcePool) (out : Text)
    (lines : List (List Text)), (∀ p ∈ pools, Plain p.Name) → Complete pools →
    writePools (Writer.mk out lines [] []) pools
      = some (Writer.mk out (lines ++ ((pools.map poolRows).flatten).map cells) [] []) := by
  intro pools
  induction pools with
  | nil => intro out lines _ _; simp [writePools]
  | cons p ps ih =>
      intro out lines hn hc
      obtain ⟨c1, c2⟩ := hc p (by simp)
      obtain ⟨b1, h1⟩ := Option.isSome_iff_exists.mp c1
      obtain ⟨b2, h2⟩ := Option.isSome_iff_exists.mp c2
      simp only [writePools]
      rw [writePool_rows out lines p (hn p (by simp)) b1 b2 h1 h2]
      simp only
      rw [ih _ _ (fun q hq => hn q (by simp [hq])) (fun q hq => hc q (by simp [hq]))]
      simp [List.append_assoc]

theorem rowsWidth_poolRows (w : Nat) (p : ResourcePool) :
    rowsWidth w (poolRows p) = max w 20 := by
  simp only [rowsWidth, poolRows, infoRows, List.cons_append, List.nil_append, List.foldl,
    List.length_append, padding]
  have h1 : "Name:".toList.length = 5 := rfl
  have h2 : "  ".toList.length = 2 := rfl
  have h3 : "CPU".toList.length = 3 := rfl
  have h4 : "Mem".toList.length = 3 := rfl
  have h5 : " Usage:".toList.length = 7 := rfl
  have h6 : " Shares:".toList.length = 8 := rfl
  have h7 : " Reservation:".toList.length = 13 := rfl
  have h8 : " Limit:".toList.length = 7 := rfl
  rw [h1, h2, h3, h4, h5, h6, h7, h8]
  omega

theorem alignRow_infoRows (name units : Text) (ru : ResourcePoolResourceUsage)
    (ra : ResourceAllocationInfo) (hlen : name.length = 3) :
    ((infoRows name units ru ra).map (alignRow 20)).flatten = alignedInfo name units ru ra := by
  have a1 : " Usage:        ".toList = " Usage:".toList ++ List.replicate 8 ' ' := rfl
  have a2 : " Shares:       ".toList = " Shares:".toList ++ List.replicate 7 ' ' := rfl
  have a3 : " Reservation:  ".toList = " Reservation:".toList ++ List.replicate 2 ' ' := rfl
  have a4 : " Limit:        ".toList = " Limit:".toList ++ List.replicate 8 ' ' := rfl
  have c1 : "%)\n".toList = "%)".toList ++ ['\n'] := rfl
  have c2 : "\n".toList = ['\n'] := rfl
  have c3 : ")\n".toList = ")".toList ++ ['\n'] := rfl
  have h2 : "  ".toList.length = 2 := rfl
  have h5 : " Usage:".toList.length = 7 := rfl
  have h6 : " Shares:".toList.length = 8 := rfl
  have h7 : " Reservation:".toList.length = 13 := rfl
  have h8 : " Limit:".toList.length = 7 := rfl
  rw [alignedInfo, a1, a2, a3, a4, c1, c2, c3]
  simp only [infoRows, List.map, List.flatten, alignRow, writePadding, List.length_append,
    hlen, h2, h5, h6, h7, h8, Nat.reduceAdd, Nat.reduceSub, List.append_assoc,
    List.append_nil]

theorem alignRow_poolRows (p : ResourcePool) :
    ((poolRows p).map (alignRow 20)).flatten = alignedBlock p := by
  have a1 : "Name:               ".toList = "Name:".toList ++ List.replicate 15 ' ' := rfl
  have c2 : "\n".toList = ['\n'] := rfl
  have h1 : "Name:".toList.length = 5 := rfl
  rw [alignedBlock, a1, c2, ← alignRow_infoRows "CPU".toList _ _ _ rfl,
    ← alignRow_infoRows "Mem".toList _ _ _ rfl]
  simp only [poolRows, List.map_cons, List.map_append, List.flatten_cons, List.flatten_append,
    alignRow, writePadding, h1, Nat.reduceSub, List.append_assoc]

theorem blockWidth_rowLines : ∀ (rows : List (Text × Text)) (w : Nat),
    blockWidth 0 w (rows.map rowLine) = rowsWidth w rows := by
  intro rows
  induction rows with
  | nil => intro w; rfl
  | cons r rs ih =>
      intro w
      simp only [List.map_cons, blockWidth, rowsWidth, List.foldl_cons]
      exact ih _

theorem writeLines_rowLines (w : Nat) (rows : List (Text × Text)) :
    writeLines [w] (rows.map rowLine) = (rows.map (alignRow w)).flatten := by
  induction rows with
  | nil => rfl
  | cons r rs ih =>
      simp only [writeLines] at ih
      simp only [writeLines, List.map_cons, List.flatten_cons, ih]
      simp [rowLine, cells, writeLine, writeCells, alignRow]

/-- Flushing buffered two-cell lines prints each with its label padded to
the width of the one column block they form. -/
theorem Flush_rows (out : Text) (rows : List (Text × Text)) :
    (Writer.mk out (rows.map cells) [] []).Flush.out
      = out ++ (rows.map (alignRow (rowsWidth minwidth rows))).flatten := by
  have hls : (rows.map cells).map (fun l => ((l, false) : Line)) = rows.map rowLine := by
    simp [rowLine]
  have hlen : ∀ l ∈ rows.map rowLine ++ [(([], true) : Line)], l.1.length ≤ 2 := by
    intro l hl
    rcases List.mem_append.mp hl with h | h
    · obtain ⟨r, _, hr⟩ := List.mem_map.mp h
      rw [← hr]; simp [rowLine, cells]
    · simp at h; rw [h]; simp
  have hall : ∀ l ∈ rows.map rowLine, hasCell ([] : List Nat).length l = true := by
    intro l hl
    obtain ⟨r, _, hr⟩ := List.mem_map.mp hl
    rw [← hr]; simp [rowLine, cells, hasCell]
  have hnone : ∀ w : Nat, ∀ l ∈ rows.map rowLine, hasCell ([w] : List Nat).length l = false := by
    intro w l hl
    obtain ⟨r, _, hr⟩ := List.mem_map.mp hl
    rw [← hr]; simp [rowLine, cells, hasCell]
  have hfmt : format 2 [] (rows.map rowLine ++ [(([], true) : Line)])
      = (rows.map (alignRow (rowsWidth minwidth rows))).flatten := by
    have h2 : format 2 [] (rows.map rowLine ++ [(([], true) : Line)])
        = formatAux (format 1) [] [] minwidth (rows.map rowLine ++ [(([], true) : Line)]) := rfl
    rw [h2, formatAux_block (format 1) [] ([], true) (by simp [hasCell]) _ [] minwidth hall]
    have h1 : ∀ w : Nat, format 1 [w] (rows.map rowLine)
        = formatAux (format 0) [w] [] minwidth (rows.map rowLine) := fun _ => rfl
    simp only [List.nil_append, h1, blockWidth_rowLines, List.length_nil]
    rw [formatAux_no_cell (format 0) _ _ minwidth (hnone _), writeLines_rowLines]
    cases rows with
    | nil => simp [writeLine, writeCells]
    | cons r rs => simp [writeLine, writeCells]
  simp only [Writer.Flush, List.isEmpty_nil, if_true, hls]
  rw [format_maxCells 2 _ hlen, hfmt]

theorem rowsWidth_pools : ∀ (pools : List ResourcePool) (w : Nat), pools ≠ [] → w ≤ 20 →
    rowsWidth w (pools.map poolRows).flatten = 20 := by
  intro pools
  induction pools with
  | nil => intro w h; exact absurd rfl h
  | cons p ps ih =>
      intro w _ hw
      have h1 : rowsWidth w ((p :: ps).map poolRows).flatten
          = rowsWidth (rowsWidth w (poolRows p)) (ps.map poolRows).flatten := by
        simp [rowsWidth, List.foldl_append]
      rw [h1, rowsWidth_poolRows]
      have h20 : max w 20 = 20 := by omega
      rw [h20]
      cases ps with
      | nil => rfl
      | cons q qs => exact ih 20 (by simp) (Nat.le_refl _)

/-- The bytes `infoResult.Write` produces for pools that all have their
`expandableReservation` pointers set and whose names hold no tab or line
break: one aligned block per pool, in the order of the list. -/
theorem Write_aligned (r : infoResult) (hn : ∀ p ∈ r.ResourcePools, Plain p.Name)
    (hc : Complete r.ResourcePools) :
    infoResult.Write r = some (r.ResourcePools.map alignedBlock).flatten := by
  unfold infoResult.Write
  have h := writePools_rows r.ResourcePools [] [] hn hc
  simp only [NewWriter, h, List.nil_append]
  rw [Flush_rows]
  cases hp : r.ResourcePools with
  | nil => rfl
  | cons p ps =>
      rw [rowsWidth_pools (p :: ps) minwidth (by simp) (by decide)]
      simp only [List.nil_append, Option.some.injEq]
      generalize p :: ps = pools
      induction pools with
      | nil => rfl
      | cons q qs ih =>
          simp only [List.map_cons, List.flatten_cons, List.map_append, List.flatten_append,
            alignRow_poolRows, ih]

theorem writeInfo_text (w : Writer) (name units : Text) (ru : ResourcePoolResourceUsage)
    (ra : ResourceAllocationInfo) (b : Bool) (hb : ra.ExpandableReservation = some b) :
    writeInfo w name units ru ra = some (w.Write (infoText name units ru ra)) := by
  unfold writeInfo infoText
  simp only [hb, Write_append, usageLine, sharesLine, reservationLine, limitLine,
    expandableText]

theorem writePool_text (tw : Writer) (p : ResourcePool) (b1 b2 : Bool)
    (h1 : p.Config.CpuAllocation.ExpandableReservation = some b1)
    (h2 : p.Config.MemoryAllocation.ExpandableReservation = some b2) :
    writePool tw p = some (tw.Write (blockText p)) := by
  unfold writePool blockText
  simp only [writeInfo_text _ _ _ _ _ b1 h1, writeInfo_text _ _ _ _ _ b2 h2, Write_append]

theorem writePools_text : ∀ (pools : List ResourcePool) (tw : Writer), Complete pools →
    writePools tw pools = some (tw.Write (pools.map blockText).flatten) := by
  intro pools
  induction pools with
  | nil => intro tw _; rfl
  | cons p ps ih =>
      intro tw hc
      obtain ⟨c1, c2⟩ := hc p (by simp)
      obtain ⟨b1, h1⟩ := Option.isSome_iff_exists.mp c1
      obtain ⟨b2, h2⟩ := Option.isSome_iff_exists.mp c2
      simp only [writePools, writePool_text tw p b1 b2 h1 h2,
        ih _ (fun q hq => hc q (by simp [hq])), List.map_cons, List.flatten_cons, Write_append]

theorem writePool_none (tw : Writer) (p : ResourcePool)
    (h : ¬ (p.Config.CpuAllocation.ExpandableReservation.isSome = true
      ∧ p.Config.MemoryAllocation.ExpandableReservation.isSome = true)) :
    writePool tw p = none := by
  unfold writePool
  cases h1 : p.Config.CpuAllocation.ExpandableReservation with
  | none => simp [writeInfo, h1]
  | some b1 =>
      cases h2 : p.Config.MemoryAllocation.ExpandableReservation with
      | none => simp [writeInfo, h1, h2]
      | some b2 => simp [h1, h2] at h

theorem writePools_none : ∀ (pools : List ResourcePool) (tw : Writer), ¬ Complete pools →
    writePools tw pools = none := by
  intro pools
  induction pools with
  | nil => intro tw h; exact absurd (fun p hp => by simp at hp) h
  | cons p ps ih =>
      intro tw h
      by_cases hp : p.Config.CpuAllocation.ExpandableReservation.isSome = true
          ∧ p.Config.MemoryAllocation.ExpandableReservation.isSome = true
      · have hps : ¬ Complete ps := by
          intro hc
          apply h
          intro q hq
          rcases List.mem_cons.mp hq with h1 | h1
          · rw [h1]; exact hp
          · exact hc q h1
        obtain ⟨b1, h1⟩ := Option.isSome_iff_exists.mp hp.1
        obtain ⟨b2, h2⟩ := Option.isSome_iff_exists.mp hp.2
        simp only [writePools, writePool_text tw p b1 b2 h1 h2]
        exact ih _ hps
      · simp only [writePools, writePool_none tw p hp]

/-- C10 (behaviour of the code on every list of pools): when a pool of the
list has an `expandableReservation` pointer that is nil, `infoResult.Write`
panics and no block is written; otherwise it hands the tab writer one
block of text per pool, in the order of the list, each block being the
`Name:` line, then the Usage, Shares, Reservation and Limit lines of `CPU`
in `MHz`, then those of `Mem` in `MB`, and returns what flushing that text
gives, which for names holding no tab or line break is the aligned blocks
of the pools one after the other; the output depends on the list of pools
alone. -/
theorem Write_blocks (r : infoResult) :
    (¬ Complete r.ResourcePools → infoResult.Write r = none)
    ∧ (Complete r.ResourcePools →
        infoResult.Write r
            = some (NewWriter.Write (r.ResourcePools.map blockText).flatten).Flush.out
        ∧ ((∀ p ∈ r.ResourcePools, Plain p.Name) →
            infoResult.Write r = some (r.ResourcePools.map alignedBlock).flatten))
    ∧ (r.ResourcePools.map alignedBlock).length = r.ResourcePools.length
    ∧ ∀ r2 : infoResult, r2.ResourcePools = r.ResourcePools →
        infoResult.Write r2 = infoResult.Write r := by
  refine ⟨?_, fun hc => ⟨?_, fun hn => Write_aligned r hn hc⟩, by simp, ?_⟩
  · intro hc
    unfold infoResult.Write
    rw [writePools_none _ _ hc]
  · unfold infoResult.Write
    rw [writePools_text _ _ hc]
  · intro r2 h
    unfold infoResult.Write
    rw [h]

/-! ## Results at the concrete inputs -/

/-- C5 (behaviour of the code): whatever the writer, the names, the usage
and the other fields of the allocation, `writeInfo` panics when the
`expandableReservation` pointer is nil; no Reservation line is rendered. -/
theorem writeInfo_nil_expandable (w : Writer) (name units : Text)
    (ru : ResourcePoolResourceUsage) (reservation limit : Int) (shares : SharesInfo) :
    writeInfo w name units ru ⟨reservation, none, limit, shares⟩ = none
    ∧ writeInfo NewWriter "CPU".toList "MHz".toList ⟨100, 1000⟩
        { exampleAllocation with ExpandableReservation := none } = none :=
  ⟨rfl, rfl⟩

set_option maxRecDepth 100000 in
/-- C6 (behaviour of the code): the report of the example pool; the label
column is 20 wide, the widest label `  CPU Reservation:` (18) plus the
padding 2, and the `Name:` line is part of the same column. -/
theorem Write_resources :
    infoResult.Write ⟨[resourcesPool], [obj1]⟩
      = some ("Name:               Resources\n".toList
          ++ "  CPU Usage:        100MHz (10.0%)\n".toList
          ++ "  CPU Shares:       Custom (2000)\n".toList
          ++ "  CPU Reservation:  0MHz (expandable=true)\n".toList
          ++ "  CPU Limit:        unlimited\n".toList
          ++ "  Mem Usage:        100MB (10.0%)\n".toList
          ++ "  Mem Shares:       Custom (2000)\n".toList
          ++ "  Mem Reservation:  0MB (expandable=true)\n".toList
          ++ "  Mem Limit:        unlimited\n".toList) := by
  decide

set_option maxRecDepth 100000 in
/-- C6 (the claim as stated fails): the output for the example pool does
not start with the five lines of the claim, which pad the labels to 19
columns and leave the `Name:` line out of the alignment. -/
theorem Write_resources_not_claimed :
    ¬ ∃ rest : Text, infoResult.Write ⟨[resourcesPool], [obj1]⟩
      = some ("Name: Resources\n".toList
          ++ "  CPU Usage:       100MHz (10.0%)\n".toList
          ++ "  CPU Shares:      Custom (2000)\n".toList
          ++ "  CPU Reservation: 0MHz (expandable=true)\n".toList
          ++ "  CPU Limit:       unlimited\n".toList ++ rest) := by
  rintro ⟨rest, h⟩
  have h1 : infoResult.Write ⟨[resourcesPool], [obj1]⟩
      = some ("Name:  ".toList ++ ("             Resources\n".toList
          ++ "  CPU Usage:        100MHz (10.0%)\n".toList
          ++ "  CPU Shares:       Custom (2000)\n".toList
          ++ "  CPU Reservation:  0MHz (expandable=true)\n".toList
          ++ "  CPU Limit:        unlimited\n".toList
          ++ "  Mem Usage:        100MB (10.0%)\n".toList
          ++ "  Mem Shares:       Custom (2000)\n".toList
          ++ "  Mem Reservation:  0MB (expandable=true)\n".toList
          ++ "  Mem Limit:        unlimited\n".toList)) := by
    decide
  rw [h1] at h
  have h2 := congrArg (List.take 7) (Option.some.inj h)
  have h3 : List.take 7 ("Name: Resources\n".toList
      ++ "  CPU Usage:       100MHz (10.0%)\n".toList
      ++ "  CPU Shares:      Custom (2000)\n".toList
      ++ "  CPU Reservation: 0MHz (expandable=true)\n".toList
      ++ "  CPU Limit:       unlimited\n".toList ++ rest) = "Name: R".toList := rfl
  rw [h3] at h2
  revert h2
  decide

/-- C2 at concrete inputs: limit -1 reads `unlimited`; -7, 0 and 4000 are
printed as they are, followed by the units. -/
theorem writeInfo_limit_line_examples :
    limitText "MHz".toList exampleAllocation = "unlimited".toList
    ∧ limitText "MHz".toList { exampleAllocation with Limit := -7 } = "-7MHz".toList
    ∧ limitText "MB".toList { exampleAllocation with Limit := 0 } = "0MB".toList
    ∧ limitLine "CPU".toList "MHz".toList { exampleAllocation with Limit := 4000 }
        = "  CPU Limit:\t4000MHz\n".toList := by
  decide

/-- C3 at concrete inputs: a custom level shows its count, a normal level
with the same count does not. -/
theorem writeInfo_shares_line_examples :
    sharesLine "CPU".toList exampleAllocation = "  CPU Shares:\tCustom (2000)\n".toList
    ∧ sharesLine "Mem".toList { exampleAllocation with Shares := ⟨2000, SharesLevel.normal⟩ }
        = "  Mem Shares:\tNormal\n".toList := by
  decide

set_option maxRecDepth 100000 in
/-- C4 at concrete inputs: `0/0` prints `NaN`, `100/0` prints `+Inf`. -/
theorem usage_zero_max_examples :
    fmtF1 (usage ⟨0, 0⟩) = "NaN".toList ∧ fmtF1 (usage ⟨100, 0⟩) = "+Inf".toList
      ∧ fmtF1 (usage ⟨-5, 0⟩) = "-Inf".toList := by
  decide

/-- C7 at a concrete input: `pool-1` and `*` both match the first object;
its reference is fetched twice, in one `Retrieve` call of three references. -/
theorem Run_retrieve_concat_witness :
    (Run stubEnv ["pool-1".toList, "*".toList] 0).calls.filter Call.isRetrieve
      = [Call.Retrieve [obj1.ref, obj1.ref, obj2.ref] (propsFor false)] :=
  (Run_retrieve_concat stubEnv ["pool-1".toList, "*".toList] 0 1 2 4
    [[obj1], [obj1, obj2]] (by simp) rfl rfl
    (Resolved.cons rfl (Resolved.cons rfl (Resolved.nil 4)))).2.1

/-- C8 at a concrete input: the second of three patterns fails; the error
comes back and the third pattern is never resolved. -/
theorem Run_resolution_error_witness :
    (Run stubEnv ["pool-1".toList, "missing".toList, "*".toList] 0).err
        = some (GoError.other "not found".toList)
    ∧ (Run stubEnv ["pool-1".toList, "missing".toList, "*".toList] 0).calls
        = [Call.Client, Call.Finder, Call.ResourcePoolList "pool-1".toList,
            Call.ResourcePoolList "missing".toList] := by
  have h := Run_resolution_error stubEnv ["pool-1".toList] ["*".toList] "missing".toList
    0 1 2 3 4 [[obj1]] (GoError.other "not found".toList) rfl rfl
    (Resolved.cons rfl (Resolved.nil 3)) rfl
  exact ⟨h.1, h.2.1⟩

/-- C9 at a concrete input: two patterns that match nothing. -/
theorem Run_no_matches_witness :
    (Run stubEnv ["none*".toList, "none*".toList] 0).calls
        = [Call.Client, Call.Finder, Call.ResourcePoolList "none*".toList,
            Call.ResourcePoolList "none*".toList, Call.WriteResult ⟨[], []⟩]
    ∧ (Run stubEnv ["none*".toList, "none*".toList] 0).err = none := by
  have h := Run_no_matches stubEnv ["none*".toList, "none*".toList] 0 1 2 4 [[], []]
    (by simp) rfl rfl (Resolved.cons rfl (Resolved.cons rfl (Resolved.nil 4)))
    (by intro os hos; simpa using hos)
  exact ⟨h.1, h.2.2.1⟩

/-- C10 at concrete inputs: of two pools the second has a nil
`expandableReservation` pointer, and nothing is rendered; two pools with
the pointers set give two aligned blocks in order. -/
theorem Write_blocks_examples :
    infoResult.Write ⟨[resourcesPool, nilExpandablePool], []⟩ = none
    ∧ infoResult.Write ⟨[otherPool, resourcesPool], []⟩
        = some (alignedBlock otherPool ++ alignedBlock resourcesPool) := by
  have hc : Complete [otherPool, resourcesPool] := by
    intro p hp
    simp only [List.mem_cons, List.mem_singleton, List.not_mem_nil, or_false] at hp
    rcases hp with h | h <;> rw [h] <;> exact ⟨rfl, rfl⟩
  have hbad : ¬ Complete [resourcesPool, nilExpandablePool] := by
    intro h
    have := (h nilExpandablePool (by simp)).1
    exact absurd this (by decide)
  have h := ((Write_blocks ⟨[otherPool, resourcesPool], []⟩).2.1 hc).2 (by
    intro p hp
    simp only [List.mem_cons, List.mem_singleton, List.not_mem_nil, or_false] at hp
    rcases hp with h | h <;> rw [h] <;> exact plain_of_all _ rfl)
  exact ⟨(Write_blocks ⟨[resourcesPool, nilExpandablePool], []⟩).1 hbad, by simpa using h⟩

end Pool
